import Mathlib

/-!
Verification of the persistence and trip-session core of the `jf_corp`
passenger-transport logbook.  The definitions below are a shallow embedding of
the TypeScript source: the trip lifecycle functions of the ScanQR page
(`buildGroupStorageKey`, `iniciarViaje`, `finalizarViaje`, `finalizarRuta`),
the IndexedDB persistence layer (`indexeddb.ts`), and the CSV import pipeline
(`processPassengersFromImport`).  Environment reads (the clock, `localStorage`)
are passed as explicit parameters; machine state is passed explicitly.
-/

set_option autoImplicit false

namespace JFCorp

/-- Trip status: the TS union `'en_curso' | 'finalizado'` of `Trip.status`. -/
inductive TripStatus where
  | en_curso
  | finalizado
  deriving DecidableEq, Repr

/-- Shift values `'mañana' | 'noche'`.  The unselected state `''` of the UI
is modelled as `Option.none` at use sites. -/
inductive Shift where
  | manana
  | noche
  deriving DecidableEq, Repr

/-- The string a shift renders to in template literals. -/
def Shift.str : Shift → String
  | .manana => "mañana"
  | .noche => "noche"

/-- The `Trip` record interface (indexeddb.ts lines 42–56): optional fields
are `Option`s. -/
structure Trip where
  id : String
  groupId : Option String
  shift : Option Shift
  passengerId : String
  passengerName : String
  passengerCedula : String
  conductorId : String
  conductorName : String
  ruta : String
  startTime : String
  endTime : Option String
  status : TripStatus
  createdAt : String
  deriving DecidableEq, Repr

/-- The `Passenger` record interface (indexeddb.ts lines 21–28). -/
structure Passenger where
  id : String
  name : String
  cedula : String
  gerencia : String
  qrCode : String
  createdAt : String
  deriving DecidableEq, Repr

/-- JavaScript `a || b` restricted to strings: the empty string is the only
falsy string. -/
def orFalsy (a b : String) : String := if a = "" then b else a

/-- The string the `currentShift` slot contributes to the storage key:
`${currentShift || 'sin_turno'}` where `''` (no selection) is `none`. -/
def shiftSlot (currentShift : Option Shift) : String :=
  orFalsy (match currentShift with | some s => s.str | none => "") "sin_turno"

/-- `buildGroupStorageKey` (ScanQR lines 38–41).  The calendar day
`new Date().toISOString().slice(0, 10)` is passed in as `day`. -/
def buildGroupStorageKey (conductorId ruta : String) (currentShift : Option Shift)
    (day : String) : String :=
  "transport_current_group_" ++ conductorId ++ "_" ++ orFalsy ruta "sin_ruta" ++ "_"
    ++ shiftSlot currentShift ++ "_" ++ day

/-- The `localStorage` area holding group bindings, as a partial map. -/
def GroupCache := String → Option String

/-- `localStorage` with no bindings. -/
def GroupCache.empty : GroupCache := fun _ => none

/-- `localStorage.setItem`. -/
def GroupCache.set (c : GroupCache) (k v : String) : GroupCache :=
  fun k' => if k' = k then some v else c k'

/-- `localStorage.removeItem`. -/
def GroupCache.remove (c : GroupCache) (k : String) : GroupCache :=
  fun k' => if k' = k then none else c k'

/-- A freshly minted group id: `` `${conductorId}-${Date.now()}` `` with clock
value `now` (ScanQR line 162). -/
def mintGroupId (conductorId : String) (now : Nat) : String :=
  conductorId ++ "-" ++ Nat.repr now

/-- The get-or-mint step of `iniciarViaje` (ScanQR lines 159–164): read the
binding under the derived key; if absent, mint a fresh groupId and store it. -/
def ensureGroup (cache : GroupCache) (conductorId ruta : String) (sh : Shift)
    (day : String) (now : Nat) : String × GroupCache :=
  let key := buildGroupStorageKey conductorId ruta (some sh) day
  match cache key with
  | some g => (g, cache)
  | none => (mintGroupId conductorId now, cache.set key (mintGroupId conductorId now))

/-- The mutable state the ScanQR trip operations act on: the persisted trip
collection (`storage.getTrips`/`saveTrips`) and the `localStorage` group
bindings. -/
structure ScanState where
  trips : List Trip
  cache : GroupCache

/-- Outcome reported by `iniciarViaje` through `setScanResult`. -/
inductive StartResult where
  | noShift
  | capacityExceeded
  | started
  deriving DecidableEq, Repr

/-- The environment reads `iniciarViaje` performs: the resolved conductor
identity (`conductor?.id || user?.id || ''` etc.), the conductor's route, and
the clock in its three renderings. -/
structure StartEnv where
  conductorId : String
  conductorName : String
  conductorRuta : Option String
  day : String
  now : Nat
  nowIso : String

/-- `iniciarViaje` (ScanQR lines 149–194).  Requires a selected shift; derives
the groupId via `ensureGroup` (writing the cache before the capacity check, as
the source does); rejects when the group already holds 18 trips; otherwise
appends one new `en_curso` trip. -/
def iniciarViaje (p : Passenger) (env : StartEnv) (shift : Option Shift)
    (s : ScanState) : StartResult × ScanState :=
  match shift with
  | none => (.noShift, s)
  | some sh =>
    let ruta := orFalsy (env.conductorRuta.getD "") "Ruta no especificada"
    let (groupId, cache') := ensureGroup s.cache env.conductorId ruta sh env.day env.now
    let currentGroupTrips := s.trips.filter (fun t => t.groupId = some groupId)
    if 18 ≤ currentGroupTrips.length then
      (.capacityExceeded, { trips := s.trips, cache := cache' })
    else
      let newTrip : Trip :=
        { id := Nat.repr env.now
          groupId := some groupId
          shift := some sh
          passengerId := p.id
          passengerName := p.name
          passengerCedula := p.cedula
          conductorId := env.conductorId
          conductorName := env.conductorName
          ruta := ruta
          startTime := env.nowIso
          endTime := none
          status := .en_curso
          createdAt := env.nowIso }
      (.started, { trips := s.trips ++ [newTrip], cache := cache' })

/-- `finalizarViaje` (ScanQR lines 196–206): map over the trip collection,
setting `status = 'finalizado'` and a fresh `endTime` on the trip whose id
matches; every other trip is passed through unchanged.  There is no lookup
failure path. -/
def finalizarViaje (tripId : String) (nowIso : String) (trips : List Trip) :
    List Trip :=
  trips.map (fun trip =>
    if trip.id = tripId then
      { trip with status := .finalizado, endTime := some nowIso }
    else trip)

/-- `finalizarRuta` (ScanQR lines 214–233), with the `window.confirm` answered
yes.  `activeTrips` is the component state loaded from the store
(`trips.filter (status = 'en_curso')`, ScanQR line 48); the batch finalizes
every stored trip whose id appears among the active trips of the given route,
then removes the group binding for (conductor, route, current shift, day). -/
def finalizarRuta (ruta : String) (conductorId : String) (shift : Option Shift)
    (day : String) (nowIso : String) (s : ScanState) : ScanState :=
  let activeTrips := s.trips.filter (fun t => t.status = .en_curso)
  let tripsToFinalize := activeTrips.filter (fun t => t.ruta = ruta)
  let updatedTrips := s.trips.map (fun trip =>
    if tripsToFinalize.any (fun t => t.id = trip.id) then
      { trip with status := .finalizado, endTime := some nowIso }
    else trip)
  let groupKey := buildGroupStorageKey conductorId ruta shift day
  { trips := updatedTrips, cache := s.cache.remove groupKey }

/-! ### IndexedDB persistence layer (`indexeddb.ts`) -/

/-- A stored record as the primary key (`keyPath: 'id'`) and the `cedula`
index see it; `payload` stands for the remaining fields. -/
structure Rec where
  id : String
  cedula : String
  payload : String
  deriving DecidableEq, Repr

/-- The key behaviour of `IDBObjectStore.put` on a store with
`keyPath: 'id'`: replace the record holding the same primary key if present,
else append. -/
def insertReplace (store : List Rec) (r : Rec) : List Rec :=
  if store.any (fun x => x.id = r.id) then
    store.map (fun x => if x.id = r.id then r else x)
  else store ++ [r]

/-- Uniqueness violation (`ConstraintError`) surfaced by `save`. -/
inductive PutError where
  | DuplicateKey
  deriving DecidableEq, Repr

/-- `save` (indexeddb.ts lines 157–164) into one of the collections whose
schema declares `createIndex('cedula', 'cedula', \x7b unique: true \x7d)` in
`init` (lines 95–108: `users`, `passengers`, `conductors`).  IndexedDB rejects
the `put` when a record with a different primary key already owns the same
`cedula`, leaving the store unchanged; otherwise it is insert-or-replace by
`id`. -/
def putUniqueCedula (store : List Rec) (r : Rec) : Except PutError (List Rec) :=
  if store.any (fun x => x.cedula = r.cedula ∧ x.id ≠ r.id) then
    .error .DuplicateKey
  else .ok (insertReplace store r)

/-- The ids of a record list. -/
def idsOf (l : List Rec) : List String := l.map Rec.id

/-! ### Migration (`migrateFromLocalStorage`, indexeddb.ts lines 261–293)

Saves during migration may fail (exhausted quota); which records the durable
store rejects is modelled by a predicate `fails` on records, fixed across the
run. -/

/-- One legacy localStorage collection paired with its durable store. -/
structure Coll where
  legacy : List Rec
  store : List Rec
  deriving DecidableEq, Repr

/-- The sequential `put`s of `saveAll` (indexeddb.ts lines 166–188): the first
rejected put rejects the whole promise; the records put before it remain
applied (partial application).  Which records the durable store rejects
(exhausted quota, or an index constraint) is modelled by `fails`.  Returns
whether all puts succeeded, with the resulting store. -/
def saveAllGo (fails : Rec → Bool) : List Rec → List Rec → Bool × List Rec
  | store, [] => (true, store)
  | store, r :: rs =>
    if fails r then (false, store)
    else saveAllGo fails (insertReplace store r) rs

/-- The per-collection loop of `migrateFromLocalStorage` (lines 280–285): each
non-empty legacy collection is saved via `saveAll`; the first failure throws,
skipping the remaining collections (the error reaches the surrounding catch).
Returns whether every save succeeded, with the updated collections. -/
def migrateColls (fails : Rec → Bool) : List Coll → Bool × List Coll
  | [] => (true, [])
  | c :: cs =>
    if c.legacy.isEmpty then
      ((migrateColls fails cs).1, c :: (migrateColls fails cs).2)
    else if (saveAllGo fails c.store c.legacy).1 then
      ((migrateColls fails cs).1,
        { c with store := (saveAllGo fails c.store c.legacy).2 }
          :: (migrateColls fails cs).2)
    else (false, { c with store := (saveAllGo fails c.store c.legacy).2 } :: cs)

/-- Migration-visible state: the durable `transport_migration_completed`
marker and the collections (legacy snapshot plus durable store), in the order
`migrate` saves them. -/
structure MigState where
  marker : Bool
  colls : List Coll

/-- `migrateFromLocalStorage` (indexeddb.ts lines 261–293): a no-op when the
completion marker is set; otherwise runs the saves, swallows any failure, and
sets the marker exactly when every save succeeded. -/
def migrate (fails : Rec → Bool) (s : MigState) : MigState :=
  if s.marker then s
  else ⟨(migrateColls fails s.colls).1, (migrateColls fails s.colls).2⟩

/-- Whether a batch of puts goes through without rejection; this depends only
on the records, not on the store contents. -/
def batchOk (fails : Rec → Bool) : List Rec → Bool
  | [] => true
  | r :: rs => if fails r then false else batchOk fails rs

/-- The id trace of a batch of puts over a store with the given ids. -/
def idsAfter (fails : Rec → Bool) (ids : List String) : List Rec → List String
  | [] => ids
  | r :: rs =>
    if fails r then ids
    else idsAfter fails (if r.id ∈ ids then ids else ids ++ [r.id]) rs

/-- Two collections with the same legacy snapshot and the same durable store
id trace — the record-set view the migration idempotence test compares. -/
def CollIdsEq (c₁ c₂ : Coll) : Prop :=
  c₁.legacy = c₂.legacy ∧ idsOf c₁.store = idsOf c₂.store

/-! ### Import pipeline (`processPassengersFromImport`, csvImport) -/

/-- An imported spreadsheet row: cell access by column header.  A missing
cell reads as the empty string — JavaScript `undefined` and `''` are equally
falsy in the `||` chains below, so this loses nothing the code observes. -/
def Row := String → String

/-- The `name` extraction with its column-header fallbacks. -/
def rowName (r : Row) : String :=
  orFalsy (r "Nombres y Apellidos") (orFalsy (r "Nombre") (orFalsy (r "nombre")
    (orFalsy (r "NOMBRE") (orFalsy (r "Name") (r "name")))))

/-- The `cedula` extraction: the fallback chain, then
`cedulaValue ? String(cedulaValue).trim() : ''`. -/
def rowCedula (r : Row) : String :=
  let v := orFalsy (r "Cedula") (orFalsy (r "cedula") (orFalsy (r "CEDULA")
    (orFalsy (r "ID") (r "id"))))
  if v = "" then "" else v.trim

/-- The `gerencia` extraction with its fallbacks. -/
def rowGerencia (r : Row) : String :=
  orFalsy (r "Gerencia") (orFalsy (r "gerencia") (orFalsy (r "GERENCIA")
    (orFalsy (r "Department") (r "department"))))

/-- Environment of one import run: whether `generateQRCode` succeeds for a
row, the QR payload it returns, the `uuidv4()` stream (indexed by how many
passengers were created before the call), and the clock rendering. -/
structure ImportEnv where
  qrOk : Row → Bool
  mkQr : Row → String
  mkId : Nat → String
  nowIso : String

/-- One iteration of the `for (const row of data)` loop in
`processPassengersFromImport`: skip rows lacking name or cedula, skip cedulas
already seen (stored or earlier in the file), skip rows whose QR generation
throws; otherwise create the passenger and record its cedula. -/
def processRow (env : ImportEnv) (st : List String × List Passenger)
    (row : Row) : List String × List Passenger :=
  let name := rowName row
  let cedula := rowCedula row
  if name = "" ∨ cedula = "" then st
  else if cedula ∈ st.1 then st
  else if env.qrOk row then
    (cedula :: st.1,
      st.2 ++ [{ id := env.mkId st.2.length
                 name := name
                 cedula := cedula
                 gerencia := rowGerencia row
                 qrCode := env.mkQr row
                 createdAt := env.nowIso }])
  else st

/-- `processPassengersFromImport` (csvImport): fold the rows over the seen
cedula set seeded from the stored passengers, returning the new passengers. -/
def processPassengersFromImport (env : ImportEnv) (existing : List Passenger)
    (rows : List Row) : List Passenger :=
  (rows.foldl (processRow env) (existing.map Passenger.cedula, [])).2

/-! ### Operation sequences (for the lifecycle monotonicity invariant) -/

/-- One user-level trip operation together with its environment reads. -/
inductive Op where
  | start (p : Passenger) (env : StartEnv) (shift : Option Shift)
  | finalizeOne (tripId : String) (nowIso : String)
  | finalizeRoute (ruta : String) (conductorId : String) (shift : Option Shift)
      (day : String) (nowIso : String)

/-- Apply one operation to the scan state. -/
def applyOp (s : ScanState) : Op → ScanState
  | .start p env shift => (iniciarViaje p env shift s).2
  | .finalizeOne tripId nowIso =>
      { s with trips := finalizarViaje tripId nowIso s.trips }
  | .finalizeRoute ruta conductorId shift day nowIso =>
      finalizarRuta ruta conductorId shift day nowIso s

/-- Apply a sequence of operations, first element first. -/
def runOps (s : ScanState) : List Op → ScanState
  | [] => s
  | op :: ops => runOps (applyOp s op) ops

/-- `n` consecutive `iniciarViaje` calls with identical parameters. -/
def iterStart (p : Passenger) (env : StartEnv) (sh : Shift) :
    Nat → ScanState → ScanState
  | 0, s => s
  | n + 1, s => (iniciarViaje p env (some sh) (iterStart p env sh n s)).2

/-! ### Concrete fixtures shared by witnesses and counterexamples -/

/-- A concrete passenger. -/
def pFix : Passenger :=
  { id := "p1", name := "Ana", cedula := "12345678", gerencia := "G1"
    qrCode := "QR", createdAt := "T0" }

/-- A concrete start environment: conductor `c1` on route `R`. -/
def envFix : StartEnv :=
  { conductorId := "c1", conductorName := "Carlos", conductorRuta := some "R"
    day := "2026-10-11", now := 1000, nowIso := "T1" }

/-- A concrete trip on route `R`, active. -/
def tripFix : Trip :=
  { id := "900", groupId := some "c1-7", shift := some .manana
    passengerId := "p1", passengerName := "Ana", passengerCedula := "12345678"
    conductorId := "c1", conductorName := "Carlos", ruta := "R"
    startTime := "T0", endTime := none, status := .en_curso, createdAt := "T0" }

/-- The groupId a start call derives for its capacity check: the cached
binding if present, else the freshly minted one. -/
def derivedGroupId (env : StartEnv) (sh : Shift) (s : ScanState) : String :=
  (ensureGroup s.cache env.conductorId
    (orFalsy (env.conductorRuta.getD "") "Ruta no especificada") sh env.day env.now).1

/-- The number of stored trips — of any status — sharing the derived
groupId; this is the quantity the source's capacity check compares to 18. -/
def groupCount (env : StartEnv) (sh : Shift) (s : ScanState) : Nat :=
  (s.trips.filter (fun t => t.groupId = some (derivedGroupId env sh s))).length

/-- A cache binding the fixture conductor/route/shift/day to group `G`. -/
def cacheFixG : GroupCache :=
  GroupCache.empty.set
    (buildGroupStorageKey "c1" "R" (some .manana) "2026-10-11") "G"

/-- A finalized trip in group `G`. -/
def tripFinG : Trip :=
  { tripFix with
    id := "901"
    groupId := some "G"
    status := .finalizado
    endTime := some "T1" }

/-- A state whose group `G` holds 18 trips, all of them finalized. -/
def sFullFinished : ScanState := ⟨List.replicate 18 tripFinG, cacheFixG⟩

/-- An active trip on route `S`. -/
def tripSFix : Trip := { tripFix with id := "902", ruta := "S" }

/-- A cache binding the fixture key to the group minted at clock 7. -/
def cacheFixMint : GroupCache :=
  GroupCache.empty.set
    (buildGroupStorageKey "c1" "R" (some .manana) "2026-10-11") (mintGroupId "c1" 7)

/-- A state with one active trip on `R`, one on `S`, and a live binding. -/
def sRouteFix : ScanState := ⟨[tripFix, tripSFix], cacheFixMint⟩

/-- Record fixture A. -/
def recA : Rec := { id := "a", cedula := "12345678", payload := "A" }

/-- A record with A's cedula but a different id. -/
def recB : Rec := { id := "b", cedula := "12345678", payload := "B" }

/-- A replacement for A: same id, new payload. -/
def recA2 : Rec := { id := "a", cedula := "12345678", payload := "A2" }

/-- A row with the given `Nombre`, `Cedula` and `Gerencia` cells; every other
cell is empty. -/
def mkRow (nombre ced ger : String) : Row :=
  fun k => if k = "Nombre" then nombre else if k = "Cedula" then ced
    else if k = "Gerencia" then ger else ""

/-- A well-formed fresh row. -/
def rowGood : Row := mkRow "Luis" "555" "G2"

/-- A row repeating the stored fixture passenger's cedula. -/
def rowDupFix : Row := mkRow "Maria" "12345678" "G3"

/-- A row with no name. -/
def rowBad : Row := mkRow "" "777" "G4"

/-- An import environment whose QR generation always succeeds. -/
def importEnvFix : ImportEnv :=
  { qrOk := fun _ => true, mkQr := fun _ => "QR"
    mkId := fun n => Nat.repr n, nowIso := "T5" }

/-- A collection with one legacy record and an empty durable store. -/
def collFix : Coll := { legacy := [recA], store := [] }

/-- A pre-migration state: marker unset, one collection. -/
def migFix : MigState := ⟨false, [collFix]⟩

/-! ### Digit-rendering facts

`Date.now()` renders through `Nat.repr`; freshness of minted group ids needs
its injectivity, proved here by relating core `Nat.toDigitsCore` to
`Nat.digits`. -/

theorem toDigitsCore_eq_digits (f : Nat) :
    ∀ (n : Nat) (ds : List Char), 0 < n → n < f →
      Nat.toDigitsCore 10 f n ds
        = ((Nat.digits 10 n).map Nat.digitChar).reverse ++ ds := by
  induction f with
  | zero => exact fun n ds _ hf => absurd hf (Nat.not_lt_zero n)
  | succ f ih =>
    intro n ds hn hf
    have hdig : Nat.digits 10 n = n % 10 :: Nat.digits 10 (n / 10) :=
      Nat.digits_def' (by norm_num) hn
    by_cases h0 : n / 10 = 0
    · have hnil : Nat.digits 10 (n / 10) = [] := by rw [h0]; simp
      simp [Nat.toDigitsCore, h0, hdig, hnil]
    · have hlt : n / 10 < n := Nat.div_lt_self hn (by norm_num)
      have hstep : Nat.toDigitsCore 10 (f + 1) n ds
          = Nat.toDigitsCore 10 f (n / 10) (Nat.digitChar (n % 10) :: ds) := by
        simp [Nat.toDigitsCore, h0]
      rw [hstep, ih (n / 10) _ (Nat.pos_of_ne_zero h0) (by omega), hdig]
      simp

theorem toDigits_eq_digits (n : Nat) (hn : 0 < n) :
    Nat.toDigits 10 n = ((Nat.digits 10 n).map Nat.digitChar).reverse := by
  simpa [Nat.toDigits] using
    toDigitsCore_eq_digits (n + 1) n [] hn (Nat.lt_succ_self n)

theorem digitChar_inj_lt (a b : Nat) (ha : a < 10) (hb : b < 10)
    (h : Nat.digitChar a = Nat.digitChar b) : a = b := by
  have key : ∀ x : Fin 10, ∀ y : Fin 10,
      Nat.digitChar x.val = Nat.digitChar y.val → x = y := by decide
  exact congrArg Fin.val (key ⟨a, ha⟩ ⟨b, hb⟩ h)

theorem map_digitChar_inj : ∀ (l₁ l₂ : List Nat), (∀ d ∈ l₁, d < 10) →
    (∀ d ∈ l₂, d < 10) → l₁.map Nat.digitChar = l₂.map Nat.digitChar → l₁ = l₂
  | [], [], _, _, _ => rfl
  | [], _ :: _, _, _, h => by simp at h
  | _ :: _, [], _, _, h => by simp at h
  | a :: l₁, b :: l₂, h₁, h₂, h => by
    simp only [List.map_cons, List.cons.injEq] at h
    have hab := digitChar_inj_lt a b (h₁ a (by simp)) (h₂ b (by simp)) h.1
    have tl := map_digitChar_inj l₁ l₂ (fun d hd => h₁ d (by simp [hd]))
      (fun d hd => h₂ d (by simp [hd])) h.2
    rw [hab, tl]

theorem repr_inj (m n : Nat) (h : Nat.repr m = Nat.repr n) : m = n := by
  have hd : Nat.toDigits 10 m = Nat.toDigits 10 n := congrArg String.data h
  have hzero : Nat.toDigits 10 0 = ['0'] := by decide
  have key : ∀ k : Nat, 0 < k → Nat.toDigits 10 k = ['0'] → False := by
    intro k hk hcontra
    rw [toDigits_eq_digits k hk] at hcontra
    have hmap : (Nat.digits 10 k).map Nat.digitChar = ['0'] := by
      have := congrArg List.reverse hcontra
      simpa using this
    cases hdig : Nat.digits 10 k with
    | nil => rw [hdig] at hmap; simp at hmap
    | cons d rest =>
      rw [hdig] at hmap
      simp only [List.map_cons, List.cons.injEq] at hmap
      have hrest : rest = [] := by
        have := hmap.2
        cases rest with
        | nil => rfl
        | cons _ _ => simp at this
      have hdlt : d < 10 :=
        Nat.digits_lt_base (by norm_num) (by rw [hdig]; simp)
      have hd0 : d = 0 := digitChar_inj_lt d 0 hdlt (by norm_num) (by
        rw [hmap.1]; rfl)
      have : k = 0 := by
        have hof := Nat.ofDigits_digits 10 k
        rw [hdig, hrest, hd0] at hof
        simpa [Nat.ofDigits] using hof.symm
      omega
  rcases Nat.eq_zero_or_pos m with hm | hm <;> rcases Nat.eq_zero_or_pos n with hn | hn
  · omega
  · exact (key n hn (by rw [← hd, hm, hzero])).elim
  · exact (key m hm (by rw [hd, hn, hzero])).elim
  · rw [toDigits_eq_digits m hm, toDigits_eq_digits n hn] at hd
    have hmap : (Nat.digits 10 m).map Nat.digitChar
        = (Nat.digits 10 n).map Nat.digitChar := by
      have := congrArg List.reverse hd
      simpa using this
    have : Nat.digits 10 m = Nat.digits 10 n :=
      map_digitChar_inj _ _
        (fun d hdm => Nat.digits_lt_base (by norm_num) hdm)
        (fun d hdn => Nat.digits_lt_base (by norm_num) hdn) hmap
    exact Nat.digits_inj_iff.mp this

theorem mintGroupId_inj_now (c : String) (t₁ t₂ : Nat)
    (h : mintGroupId c t₁ = mintGroupId c t₂) : t₁ = t₂ := by
  apply repr_inj
  apply String.ext
  have hdata := congrArg String.data h
  simp only [mintGroupId, String.data_append, List.append_assoc] at hdata
  exact List.append_cancel_left (List.append_cancel_left hdata)

/-! ### Storage-key anatomy -/

theorem underscore_data : ("_" : String).data = ['_'] := rfl

/-- Splitting a separated concatenation at the first separator occurrence is
unambiguous when the left parts avoid the separator. -/
theorem append_sep_inj (sep : Char) (a : List Char) :
    ∀ (a' b b' : List Char), sep ∉ a → sep ∉ a' →
      a ++ sep :: b = a' ++ sep :: b' → a = a' ∧ b = b' := by
  induction a with
  | nil =>
    intro a' b b' _ ha' h
    cases a' with
    | nil => simpa using h
    | cons c a' =>
      simp only [List.nil_append, List.cons_append, List.cons.injEq] at h
      exact absurd (h.1 ▸ List.mem_cons_self c a') ha'
  | cons c a ih =>
    intro a' b b' ha ha' h
    cases a' with
    | nil =>
      simp only [List.cons_append, List.nil_append, List.cons.injEq] at h
      exact absurd (h.1.symm ▸ List.mem_cons_self c a) ha
    | cons c' a' =>
      simp only [List.cons_append, List.cons.injEq] at h
      obtain ⟨rfl, h2⟩ := h
      have hrec := ih a' b b' (fun hm => ha (List.mem_cons_of_mem _ hm))
        (fun hm => ha' (List.mem_cons_of_mem _ hm)) h2
      exact ⟨by rw [hrec.1], hrec.2⟩

theorem shiftSlot_some (sh : Shift) : shiftSlot (some sh) = sh.str := by
  cases sh <;> decide

theorem shift_str_no_underscore (sh : Shift) : '_' ∉ (Shift.str sh).data := by
  cases sh <;> decide

theorem shift_str_inj (sh sh' : Shift) (h : Shift.str sh = Shift.str sh') :
    sh = sh' := by
  cases sh <;> cases sh' <;> first | rfl | exact absurd h (by decide)

/-- The character data of a derived storage key, split at its separators. -/
theorem key_data (c r : String) (sh : Shift) (d : String) :
    (buildGroupStorageKey c r (some sh) d).data
      = "transport_current_group_".data
          ++ c.data ++ '_' :: ((orFalsy r "sin_ruta").data
          ++ '_' :: ((Shift.str sh).data ++ '_' :: d.data)) := by
  simp [buildGroupStorageKey, shiftSlot_some, String.data_append,
    underscore_data, List.append_assoc]

/-- Restricted injectivity of the key derivation: conductor and route free of
the separator, route nonempty. -/
theorem buildGroupStorageKey_inj (c c' r r' d d' : String) (sh sh' : Shift)
    (hc : '_' ∉ c.data) (hc' : '_' ∉ c'.data)
    (hr : '_' ∉ r.data) (hr' : '_' ∉ r'.data)
    (hrne : r ≠ "") (hrne' : r' ≠ "")
    (h : buildGroupStorageKey c r (some sh) d
        = buildGroupStorageKey c' r' (some sh') d') :
    c = c' ∧ r = r' ∧ sh = sh' ∧ d = d' := by
  have hro : orFalsy r "sin_ruta" = r := by simp [orFalsy, hrne]
  have hro' : orFalsy r' "sin_ruta" = r' := by simp [orFalsy, hrne']
  have hdata := congrArg String.data h
  rw [key_data, key_data, hro, hro', List.append_assoc, List.append_assoc] at hdata
  have h1 := List.append_cancel_left hdata
  have h2 := append_sep_inj '_' c.data c'.data _ _ hc hc' h1
  have h3 := append_sep_inj '_' r.data r'.data _ _ hr hr' h2.2
  have h4 := append_sep_inj '_' (Shift.str sh).data (Shift.str sh').data _ _
    (shift_str_no_underscore sh) (shift_str_no_underscore sh') h3.2
  refine ⟨String.ext h2.1, String.ext h3.1, ?_, String.ext h4.2⟩
  exact shift_str_inj sh sh' (String.ext h4.1)

/-- Keys for the two shifts always differ (their data lengths differ). -/
theorem key_shift_ne (c r d : String) :
    buildGroupStorageKey c r (some .manana) d
      ≠ buildGroupStorageKey c r (some .noche) d := by
  intro h
  have := congrArg (fun s => s.data.length) h
  simp only [key_data] at this
  simp [Shift.str, List.length_append] at this

/-! ### finalizarViaje: frame, missing id, re-finalize -/

/-- A finalized variant of the fixture trip, end stamped `T1`. -/
def tripFinFix : Trip := { tripFix with status := .finalizado, endTime := some "T1" }

/-- Re-finalizing with the same clock value changes nothing further. -/
theorem finalizarViaje_fixed_clock_idem (tripId n : String) (trips : List Trip) :
    finalizarViaje tripId n (finalizarViaje tripId n trips)
      = finalizarViaje tripId n trips := by
  unfold finalizarViaje
  rw [List.map_map]
  apply List.map_congr_left
  intro t _
  by_cases h : t.id = tripId <;> simp [h]

/-- C10: `finalizarViaje` never changes the number of trip records; every trip
whose id differs from the given `tripId` keeps all its fields; and when no
trip carries the id, the whole store is returned unchanged — the function is
total, so the call completes without error. -/
theorem C10_finalizeOne_frame (tripId nowIso : String) (trips : List Trip) :
    (finalizarViaje tripId nowIso trips).length = trips.length
    ∧ (∀ i (h : i < trips.length)
        (h' : i < (finalizarViaje tripId nowIso trips).length),
        (trips.get ⟨i, h⟩).id ≠ tripId →
        (finalizarViaje tripId nowIso trips).get ⟨i, h'⟩ = trips.get ⟨i, h⟩)
    ∧ ((∀ t ∈ trips, t.id ≠ tripId) →
        finalizarViaje tripId nowIso trips = trips) := by
  refine ⟨by simp [finalizarViaje], ?_, ?_⟩
  · intro i h h' hne
    simp only [finalizarViaje, List.get_eq_getElem, List.getElem_map] at hne ⊢
    exact if_neg hne
  · intro hall
    unfold finalizarViaje
    conv_rhs => rw [← List.map_id trips]
    apply List.map_congr_left
    intro t ht
    simp [hall t ht]

/-- Witness for C10 at a concrete store and a missing id. -/
theorem C10_witness :
    (finalizarViaje "x" "T2" [tripFix]).length = 1
    ∧ finalizarViaje "x" "T2" [tripFix] = [tripFix] :=
  ⟨(C10_finalizeOne_frame "x" "T2" [tripFix]).1,
    (C10_finalizeOne_frame "x" "T2" [tripFix]).2.2 (by decide)⟩

/-- C2 counterexample: `finalizarViaje` on an id owned by no stored trip does
not fail with `NotFound` — the function is total and returns normally with the
store unchanged.  Concretely, the only stored trip has id `"900" ≠ "x"` and
the call yields the untouched store. -/
theorem C2_counterexample :
    (∀ t ∈ [tripFix], t.id ≠ "x")
    ∧ finalizarViaje "x" "T2" [tripFix] = [tripFix] := by
  constructor
  · decide
  · decide

/-- C2 as amended: when no stored trip has the given id, `finalizarViaje`
completes without error and leaves the trip store unchanged (there is no
`NotFound` failure path in the source). -/
theorem C2_missing_id_noop (tripId nowIso : String) (trips : List Trip)
    (hall : ∀ t ∈ trips, t.id ≠ tripId) :
    finalizarViaje tripId nowIso trips = trips := by
  unfold finalizarViaje
  conv_rhs => rw [← List.map_id trips]
  apply List.map_congr_left
  intro t ht
  simp [hall t ht]

/-- Witness for the amended C2. -/
theorem C2_witness : finalizarViaje "x" "T2" [tripFix] = [tripFix] :=
  C2_missing_id_noop "x" "T2" [tripFix] (by decide)

/-- C3 counterexample: finalizing an already-finalized trip is not a no-op —
the stored record's end timestamp is overwritten with the fresh clock value,
so the store after the call differs from the store before it. -/
theorem C3_counterexample :
    tripFinFix.status = TripStatus.finalizado
    ∧ finalizarViaje "900" "T2" [tripFinFix] ≠ [tripFinFix]
    ∧ finalizarViaje "900" "T2" [tripFinFix]
        = [{ tripFinFix with endTime := some "T2" }] := by
  refine ⟨rfl, ?_, by decide⟩
  intro h
  have := congrArg (fun l => l.head?) h
  simp [finalizarViaje, tripFinFix, tripFix] at this

/-- C3 as amended: calling `finalizarViaje` on an already-finalized trip
succeeds (no failure path), keeps the status `finalizado` and every field
except the end timestamp, which it overwrites with the current clock value;
two runs with the same clock value leave the same store as one run. -/
theorem C3_refinalize (tripId n : String) (trips : List Trip) :
    (∀ i (h : i < trips.length)
        (h' : i < (finalizarViaje tripId n trips).length),
        (trips.get ⟨i, h⟩).id = tripId →
        (trips.get ⟨i, h⟩).status = TripStatus.finalizado →
        (finalizarViaje tripId n trips).get ⟨i, h'⟩
          = { trips.get ⟨i, h⟩ with endTime := some n })
    ∧ finalizarViaje tripId n (finalizarViaje tripId n trips)
        = finalizarViaje tripId n trips := by
  refine ⟨?_, finalizarViaje_fixed_clock_idem tripId n trips⟩
  intro i h h' hid hst
  simp only [finalizarViaje, List.get_eq_getElem, List.getElem_map] at hid hst ⊢
  rw [if_pos hid, hst]

/-- Witness for the amended C3. -/
theorem C3_witness :
    tripFinFix.status = TripStatus.finalizado
    ∧ (finalizarViaje "900" "T2" [tripFinFix]).get ⟨0, by simp [finalizarViaje]⟩
        = { tripFinFix with endTime := some "T2" }
    ∧ finalizarViaje "900" "T2" (finalizarViaje "900" "T2" [tripFinFix])
        = finalizarViaje "900" "T2" [tripFinFix] := by
  refine ⟨by decide, ?_, (C3_refinalize "900" "T2" [tripFinFix]).2⟩
  exact (C3_refinalize "900" "T2" [tripFinFix]).1 0 (by decide)
    (by simp [finalizarViaje]) (by decide) (by decide)

/-! ### iniciarViaje: capacity -/

/-- C1 (amended): the capacity check of `iniciarViaje` counts every stored
trip sharing the derived groupId regardless of status.  If that count is at
least 18 the call fails with capacity exceeded and appends no trip; if it is
strictly below 18 the call succeeds and appends exactly one new trip with
status `en_curso`.  In particular 18 consecutive identical start calls from an
empty store all succeed and the 19th fails, leaving 18 records. -/
theorem C1_start_capacity (p : Passenger) (env : StartEnv) (sh : Shift)
    (s : ScanState) :
    (18 ≤ groupCount env sh s →
        (iniciarViaje p env (some sh) s).1 = StartResult.capacityExceeded
        ∧ (iniciarViaje p env (some sh) s).2.trips = s.trips)
    ∧ (groupCount env sh s < 18 →
        (iniciarViaje p env (some sh) s).1 = StartResult.started
        ∧ ∃ nt : Trip, nt.status = TripStatus.en_curso
            ∧ (iniciarViaje p env (some sh) s).2.trips = s.trips ++ [nt])
    ∧ ((∀ k, k < 18 → (iniciarViaje pFix envFix (some .manana)
          (iterStart pFix envFix .manana k ⟨[], GroupCache.empty⟩)).1
            = StartResult.started)
        ∧ (iniciarViaje pFix envFix (some .manana)
            (iterStart pFix envFix .manana 18 ⟨[], GroupCache.empty⟩)).1
              = StartResult.capacityExceeded
        ∧ (iterStart pFix envFix .manana 19 ⟨[], GroupCache.empty⟩).trips.length
            = 18) := by
  refine ⟨?_, ?_, by decide⟩ <;>
  · unfold groupCount derivedGroupId iniciarViaje
    cases hE : ensureGroup s.cache env.conductorId
        (orFalsy (env.conductorRuta.getD "") "Ruta no especificada")
        sh env.day env.now with
    | mk g c =>
      simp only [hE]
      by_cases hcap : 18 ≤ (s.trips.filter (fun t => t.groupId = some g)).length
      · simp [hcap]
      · simp [hcap]

/-- C1 counterexample to the claim as stated: a store whose group `G` holds
18 trips that are all finalized — zero active trips, so the claim requires
the start call to succeed — yet the code rejects the call with capacity
exceeded and creates nothing, because its check counts trips of any status. -/
theorem C1_counterexample :
    (sFullFinished.trips.filter (fun t => t.status = TripStatus.en_curso
        ∧ t.groupId = some (derivedGroupId envFix .manana sFullFinished))).length = 0
    ∧ (iniciarViaje pFix envFix (some .manana) sFullFinished).1
        = StartResult.capacityExceeded
    ∧ (iniciarViaje pFix envFix (some .manana) sFullFinished).2.trips
        = sFullFinished.trips := by
  decide

/-- Witness for the amended C1 at concrete states on both sides of the
capacity bound. -/
theorem C1_witness :
    (iniciarViaje pFix envFix (some .manana) ⟨[], GroupCache.empty⟩).1
      = StartResult.started
    ∧ (iniciarViaje pFix envFix (some .manana) sFullFinished).1
        = StartResult.capacityExceeded :=
  ⟨((C1_start_capacity pFix envFix .manana ⟨[], GroupCache.empty⟩).2.1
      (by decide)).1,
    ((C1_start_capacity pFix envFix .manana sFullFinished).1 (by decide)).1⟩

/-! ### finalizarRuta -/

/-- Under distinct trip ids, a stored trip is marked for batch finalization
exactly when it is active and on the given route. -/
theorem finalize_mark_iff (R : String) (trips : List Trip)
    (hnd : (trips.map Trip.id).Nodup) (t : Trip) (ht : t ∈ trips) :
    ((trips.filter (fun x => x.status = TripStatus.en_curso)).filter
        (fun x => x.ruta = R)).any (fun x => x.id = t.id) = true
      ↔ t.status = TripStatus.en_curso ∧ t.ruta = R := by
  constructor
  · intro h
    obtain ⟨x, hx, hxid⟩ := List.any_eq_true.mp h
    have hx1 := List.mem_filter.mp hx
    have hx2 := List.mem_filter.mp hx1.1
    have hxt : x = t :=
      List.inj_on_of_nodup_map hnd hx2.1 ht (by simpa using hxid)
    refine ⟨?_, ?_⟩
    · rw [← hxt]; simpa using hx2.2
    · rw [← hxt]; simpa using hx1.2
  · intro ⟨h1, h2⟩
    exact List.any_eq_true.mpr ⟨t,
      List.mem_filter.mpr ⟨List.mem_filter.mpr ⟨ht, by simp [h1]⟩, by simp [h2]⟩,
      by simp⟩

/-- C4: with pairwise-distinct trip ids (the data model's unique-id
assumption), `finalizarRuta R` finalizes — status and fresh end stamp —
exactly the currently-active trips on route `R`, leaves every other trip
unchanged field-for-field, removes the cached group binding for
(conductor, R, shift, day), and a subsequent `ensureGroup` there mints a
groupId distinct from the cleared one (the mint clock values being distinct,
as the source's uniqueness source assumes). -/
theorem C4_finalizeRoute (R conductorId : String) (sh : Shift)
    (day nowIso : String) (s : ScanState)
    (hnd : (s.trips.map Trip.id).Nodup) :
    (finalizarRuta R conductorId (some sh) day nowIso s).trips.length
        = s.trips.length
    ∧ (∀ i (h : i < s.trips.length)
        (h' : i < (finalizarRuta R conductorId (some sh) day nowIso s).trips.length),
        ((s.trips.get ⟨i, h⟩).status = TripStatus.en_curso →
          (s.trips.get ⟨i, h⟩).ruta = R →
          (finalizarRuta R conductorId (some sh) day nowIso s).trips.get ⟨i, h'⟩
            = { s.trips.get ⟨i, h⟩ with
                status := TripStatus.finalizado, endTime := some nowIso })
        ∧ ((s.trips.get ⟨i, h⟩).status = TripStatus.finalizado
              ∨ (s.trips.get ⟨i, h⟩).ruta ≠ R →
          (finalizarRuta R conductorId (some sh) day nowIso s).trips.get ⟨i, h'⟩
            = s.trips.get ⟨i, h⟩))
    ∧ (finalizarRuta R conductorId (some sh) day nowIso s).cache
        (buildGroupStorageKey conductorId R (some sh) day) = none
    ∧ (∀ t₁ t₂ : Nat, t₂ ≠ t₁ →
        s.cache (buildGroupStorageKey conductorId R (some sh) day)
          = some (mintGroupId conductorId t₁) →
        (ensureGroup (finalizarRuta R conductorId (some sh) day nowIso s).cache
            conductorId R sh day t₂).1 ≠ mintGroupId conductorId t₁) := by
  refine ⟨by simp [finalizarRuta], ?_, ?_, ?_⟩
  · intro i h h'
    constructor
    · intro hact hruta
      have hmark := (finalize_mark_iff R s.trips hnd (s.trips.get ⟨i, h⟩)
        (List.get_mem s.trips i h)).mpr ⟨hact, hruta⟩
      simp only [finalizarRuta, List.get_eq_getElem, List.getElem_map] at hmark ⊢
      rw [if_pos hmark]
    · intro hother
      have hmark : ¬ (((s.trips.filter (fun x => x.status = TripStatus.en_curso)).filter
          (fun x => x.ruta = R)).any (fun x => x.id = (s.trips.get ⟨i, h⟩).id) = true) := by
        rw [finalize_mark_iff R s.trips hnd (s.trips.get ⟨i, h⟩) (List.get_mem s.trips i h)]
        rcases hother with hfin | hne
        · intro hc; rw [hc.1] at hfin; exact absurd hfin (by simp)
        · intro hc; exact hne hc.2
      simp only [finalizarRuta, List.get_eq_getElem, List.getElem_map] at hmark ⊢
      rw [if_neg hmark]
  · simp [finalizarRuta, GroupCache.remove]
  · intro t₁ t₂ ht hbind
    have hnone : (finalizarRuta R conductorId (some sh) day nowIso s).cache
        (buildGroupStorageKey conductorId R (some sh) day) = none := by
      simp [finalizarRuta, GroupCache.remove]
    simp only [ensureGroup, hnone]
    intro hc
    exact ht (mintGroupId_inj_now conductorId t₂ t₁ hc)

/-- Witness for C4 at the two-trip fixture state. -/
theorem C4_witness :
    (finalizarRuta "R" "c1" (some .manana) "2026-10-11" "T2" sRouteFix).trips.length = 2
    ∧ (finalizarRuta "R" "c1" (some .manana) "2026-10-11" "T2" sRouteFix).trips.get
        ⟨0, by simp [finalizarRuta, sRouteFix]⟩
        = { tripFix with status := TripStatus.finalizado, endTime := some "T2" }
    ∧ (finalizarRuta "R" "c1" (some .manana) "2026-10-11" "T2" sRouteFix).trips.get
        ⟨1, by simp [finalizarRuta, sRouteFix]⟩ = tripSFix
    ∧ (finalizarRuta "R" "c1" (some .manana) "2026-10-11" "T2" sRouteFix).cache
        (buildGroupStorageKey "c1" "R" (some .manana) "2026-10-11") = none
    ∧ (ensureGroup (finalizarRuta "R" "c1" (some .manana) "2026-10-11" "T2" sRouteFix).cache
        "c1" "R" .manana "2026-10-11" 8).1 ≠ mintGroupId "c1" 7 := by
  have h := C4_finalizeRoute "R" "c1" .manana "2026-10-11" "T2" sRouteFix (by decide)
  refine ⟨h.1.trans (by decide), ?_, ?_, h.2.2.1, h.2.2.2 7 8 (by decide) (by decide)⟩
  · exact (h.2.1 0 (by decide) (by simp [finalizarRuta, sRouteFix])).1 (by decide) (by decide)
  · exact (h.2.1 1 (by decide) (by simp [finalizarRuta, sRouteFix])).2 (by decide)

/-! ### Group key derivation and ensureGroup -/

/-- C5 counterexample: the key derivation is not injective on distinct
(conductorId, route, shift, day) tuples — an empty route falls back to the
literal `'sin_ruta'`, so the empty route and the route named `"sin_ruta"`
collide on the same cache key. -/
theorem C5_counterexample :
    buildGroupStorageKey "c1" "" (some .manana) "2026-10-11"
      = buildGroupStorageKey "c1" "sin_ruta" (some .manana) "2026-10-11"
    ∧ ("" : String) ≠ "sin_ruta" := by
  exact ⟨by decide, by decide⟩

/-- C5 as amended: the key derivation is a pure deterministic function of
(conductorId, route, shift, day).  Two `ensureGroup` calls under the same key
return the same groupId (the second reads the cached binding); from a fresh
cache, a call with the other shift on the same day returns a different
groupId provided the two mint clock values differ; and distinct tuples map to
distinct cache keys provided conductorId and route contain no underscore and
the route is nonempty (the collisions of the counterexample are exactly what
these provisos exclude). -/
theorem C5_group_key (cache : GroupCache) (c r d : String) (sh : Shift)
    (t₁ t₂ : Nat) :
    ((ensureGroup (ensureGroup cache c r sh d t₁).2 c r sh d t₂).1
        = (ensureGroup cache c r sh d t₁).1)
    ∧ (t₁ ≠ t₂ →
        (ensureGroup (ensureGroup GroupCache.empty c r .manana d t₁).2
            c r .noche d t₂).1
          ≠ (ensureGroup GroupCache.empty c r .manana d t₁).1)
    ∧ (∀ (c' r' d' : String) (sh' : Shift),
        '_' ∉ c.data → '_' ∉ c'.data → '_' ∉ r.data → '_' ∉ r'.data →
        r ≠ "" → r' ≠ "" →
        buildGroupStorageKey c r (some sh) d
          = buildGroupStorageKey c' r' (some sh') d' →
        c = c' ∧ r = r' ∧ sh = sh' ∧ d = d') := by
  refine ⟨?_, ?_, fun c' r' d' sh' hc hc' hr hr' hrne hrne' hkey =>
    buildGroupStorageKey_inj c c' r r' d d' sh sh' hc hc' hr hr' hrne hrne' hkey⟩
  · unfold ensureGroup
    cases hk : cache (buildGroupStorageKey c r (some sh) d) with
    | some g => simp [hk]
    | none => simp [hk, GroupCache.set]
  · intro hne
    unfold ensureGroup
    have hk1 : GroupCache.empty (buildGroupStorageKey c r (some .manana) d) = none := rfl
    simp only [hk1]
    have hkne : buildGroupStorageKey c r (some Shift.noche) d
        ≠ buildGroupStorageKey c r (some Shift.manana) d :=
      fun h => key_shift_ne c r d h.symm
    simp only [GroupCache.set, if_neg hkne, GroupCache.empty]
    intro hc
    exact hne (mintGroupId_inj_now c t₁ t₂ hc.symm)

/-- Witness for the amended C5 at concrete inputs. -/
theorem C5_witness :
    ((ensureGroup (ensureGroup cacheFixMint "c1" "R" .manana "2026-10-11" 5).2
        "c1" "R" .manana "2026-10-11" 6).1
      = (ensureGroup cacheFixMint "c1" "R" .manana "2026-10-11" 5).1)
    ∧ ((ensureGroup (ensureGroup GroupCache.empty "c1" "R" .manana "2026-10-11" 5).2
          "c1" "R" .noche "2026-10-11" 6).1
        ≠ (ensureGroup GroupCache.empty "c1" "R" .manana "2026-10-11" 5).1)
    ∧ ("c1" : String) = "c1" ∧ ("R" : String) = "R" ∧ Shift.manana = Shift.manana
      ∧ ("2026-10-11" : String) = "2026-10-11" := by
  have h := C5_group_key cacheFixMint "c1" "R" "2026-10-11" .manana 5 6
  have h' := C5_group_key GroupCache.empty "c1" "R" "2026-10-11" .manana 5 6
  exact ⟨h.1, h'.2.1 (by decide),
    h.2.2 "c1" "R" "2026-10-11" .manana (by decide) (by decide) (by decide)
      (by decide) (by decide) (by decide) rfl⟩

/-! ### put with the unique cedula index -/

/-- C7: `save` into a collection with the declared unique `cedula` index
(users, passengers, conductors): if a stored record with a different id
already owns the cedula the put is rejected with `DuplicateKey` — the
`Except.error` result carries no store, i.e. nothing was written — and a put
whose id matches an existing record replaces that record in place. -/
theorem C7_put_unique_cedula (store : List Rec) (r : Rec) :
    ((∃ x ∈ store, x.cedula = r.cedula ∧ x.id ≠ r.id) →
        putUniqueCedula store r = Except.error PutError.DuplicateKey)
    ∧ (¬ (∃ x ∈ store, x.cedula = r.cedula ∧ x.id ≠ r.id) →
        putUniqueCedula store r = Except.ok (insertReplace store r))
    ∧ ((∃ x ∈ store, x.id = r.id) →
        ¬ (∃ x ∈ store, x.cedula = r.cedula ∧ x.id ≠ r.id) →
        putUniqueCedula store r
          = Except.ok (store.map (fun x => if x.id = r.id then r else x))) := by
  refine ⟨?_, ?_, ?_⟩
  · intro hdup
    unfold putUniqueCedula
    rw [if_pos]
    simpa using hdup
  · intro hnodup
    unfold putUniqueCedula
    rw [if_neg]
    simpa using hnodup
  · intro hid hnodup
    unfold putUniqueCedula insertReplace
    rw [if_neg (by simpa using hnodup), if_pos (by simpa using hid)]

/-- Witness for C7: a conflicting cedula is rejected; a same-id put replaces. -/
theorem C7_witness :
    putUniqueCedula [recA] recB = Except.error PutError.DuplicateKey
    ∧ putUniqueCedula [recA] recA2 = Except.ok [recA2] := by
  refine ⟨(C7_put_unique_cedula [recA] recB).1 (by decide), ?_⟩
  have h := (C7_put_unique_cedula [recA] recA2).2.2 (by decide) (by decide)
  rw [h]
  rfl

/-! ### Lifecycle status monotonicity -/

/-- The trip list a start call leaves behind: unchanged, or one appended. -/
theorem start_trips_shape (p : Passenger) (env : StartEnv)
    (shift : Option Shift) (s : ScanState) :
    (iniciarViaje p env shift s).2.trips = s.trips
    ∨ ∃ nt, (iniciarViaje p env shift s).2.trips = s.trips ++ [nt] := by
  cases shift with
  | none => exact Or.inl rfl
  | some sh =>
    simp only [iniciarViaje]
    cases hE : ensureGroup s.cache env.conductorId
        (orFalsy (env.conductorRuta.getD "") "Ruta no especificada")
        sh env.day env.now with
    | mk g c =>
      split
      · exact Or.inl rfl
      · exact Or.inr ⟨_, rfl⟩

/-- A finalized trip stays finalized, at its position, across any single
operation. -/
theorem applyOp_preserves_final (s : ScanState) (op : Op) (i : Nat)
    (h : i < s.trips.length)
    (hfin : (s.trips.get ⟨i, h⟩).status = TripStatus.finalizado) :
    ∃ h' : i < (applyOp s op).trips.length,
      ((applyOp s op).trips.get ⟨i, h'⟩).status = TripStatus.finalizado := by
  cases op with
  | start p env shift =>
    rcases start_trips_shape p env shift s with hsame | ⟨nt, happ⟩
    · have h2 : i < (iniciarViaje p env shift s).2.trips.length := by
        rw [hsame]; exact h
      refine ⟨h2, ?_⟩
      have hg := List.get_of_eq hsame ⟨i, h2⟩
      show ((iniciarViaje p env shift s).2.trips.get ⟨i, h2⟩).status = _
      rw [hg]
      exact hfin
    · have h2 : i < (iniciarViaje p env shift s).2.trips.length := by
        rw [happ, List.length_append]
        omega
      refine ⟨h2, ?_⟩
      have hg := List.get_of_eq happ ⟨i, h2⟩
      show ((iniciarViaje p env shift s).2.trips.get ⟨i, h2⟩).status = _
      rw [hg]
      simp only [List.get_eq_getElem]
      rw [List.getElem_append_left h]
      simpa using hfin
  | finalizeOne tripId nowIso =>
    refine ⟨by simpa [applyOp, finalizarViaje] using h, ?_⟩
    simp only [applyOp, finalizarViaje, List.get_eq_getElem, List.getElem_map]
    simp only [List.get_eq_getElem] at hfin
    by_cases hid : s.trips[i].id = tripId
    · rw [if_pos hid]
    · rw [if_neg hid]; exact hfin
  | finalizeRoute ruta conductorId shift day nowIso =>
    refine ⟨by simpa [applyOp, finalizarRuta] using h, ?_⟩
    simp only [applyOp, finalizarRuta, List.get_eq_getElem, List.getElem_map]
    simp only [List.get_eq_getElem] at hfin
    by_cases hmark : (((s.trips.filter (fun t => t.status = TripStatus.en_curso)).filter
        (fun t => t.ruta = ruta)).any (fun t => t.id = s.trips[i].id)) = true
    · rw [if_pos hmark]
    · rw [if_neg hmark]; exact hfin

/-- C8: trip status is monotonic.  Any single operation either leaves a
stored trip's status alone or moves it from active to finalized, and across
every sequence of operations a finalized trip remains finalized at its
position in the store. -/
theorem C8_status_monotonic :
    (∀ (s : ScanState) (op : Op) (i : Nat) (h : i < s.trips.length)
        (h' : i < (applyOp s op).trips.length),
        ((applyOp s op).trips.get ⟨i, h'⟩).status ≠ (s.trips.get ⟨i, h⟩).status →
        (s.trips.get ⟨i, h⟩).status = TripStatus.en_curso
          ∧ ((applyOp s op).trips.get ⟨i, h'⟩).status = TripStatus.finalizado)
    ∧ (∀ (ops : List Op) (s : ScanState) (i : Nat) (h : i < s.trips.length),
        (s.trips.get ⟨i, h⟩).status = TripStatus.finalizado →
        ∃ h' : i < (runOps s ops).trips.length,
          ((runOps s ops).trips.get ⟨i, h'⟩).status = TripStatus.finalizado) := by
  constructor
  · intro s op i h h' hne
    cases hst : (s.trips.get ⟨i, h⟩).status with
    | finalizado =>
      obtain ⟨h'', hkeep⟩ := applyOp_preserves_final s op i h hst
      exact absurd (hkeep.trans hst.symm) hne
    | en_curso =>
      refine ⟨rfl, ?_⟩
      cases hst' : ((applyOp s op).trips.get ⟨i, h'⟩).status with
      | finalizado => rfl
      | en_curso => exact absurd (hst'.trans hst.symm) hne
  · intro ops
    induction ops with
    | nil => exact fun s i h hfin => ⟨h, hfin⟩
    | cons op ops ih =>
      intro s i h hfin
      obtain ⟨h', hfin'⟩ := applyOp_preserves_final s op i h hfin
      exact ih (applyOp s op) i h' hfin'

/-- Witness for C8: a finalized trip survives a start, a re-finalize of
another id, and a route finalization. -/
theorem C8_witness :
    ∃ h' : 0 < (runOps ⟨[tripFinFix], cacheFixMint⟩
        [Op.start pFix envFix (some .manana),
         Op.finalizeOne "x" "T3",
         Op.finalizeRoute "R" "c1" (some .manana) "2026-10-11" "T4"]).trips.length,
      ((runOps ⟨[tripFinFix], cacheFixMint⟩
        [Op.start pFix envFix (some .manana),
         Op.finalizeOne "x" "T3",
         Op.finalizeRoute "R" "c1" (some .manana) "2026-10-11" "T4"]).trips.get
          ⟨0, h'⟩).status = TripStatus.finalizado :=
  C8_status_monotonic.2
    [Op.start pFix envFix (some .manana),
     Op.finalizeOne "x" "T3",
     Op.finalizeRoute "R" "c1" (some .manana) "2026-10-11" "T4"]
    ⟨[tripFinFix], cacheFixMint⟩ 0 (by decide) (by decide)

/-! ### Import pipeline -/

/-- A row lacking a name or a cedula leaves the loop state untouched. -/
theorem processRow_bad_row (env : ImportEnv) (st : List String × List Passenger)
    (row : Row) (hbad : rowName row = "" ∨ rowCedula row = "") :
    processRow env st row = st := by
  unfold processRow
  rw [if_pos hbad]

/-- Loop invariant of the import fold: pairwise-distinct output cedulas, all
of them recorded in the seen set, and every output row either pre-existed or
carries a cedula that was not initially seen. -/
theorem processRows_invariant (env : ImportEnv) (rows : List Row) :
    ∀ (ceds : List String) (out : List Passenger),
      out.Pairwise (fun p q => p.cedula ≠ q.cedula) →
      (∀ p ∈ out, p.cedula ∈ ceds) →
      (rows.foldl (processRow env) (ceds, out)).2.Pairwise
          (fun p q => p.cedula ≠ q.cedula)
      ∧ (∀ p ∈ (rows.foldl (processRow env) (ceds, out)).2, p.cedula
          ∈ (rows.foldl (processRow env) (ceds, out)).1)
      ∧ (∀ p ∈ (rows.foldl (processRow env) (ceds, out)).2,
          p ∈ out ∨ p.cedula ∉ ceds) := by
  induction rows with
  | nil => exact fun ceds out h1 h2 => ⟨h1, h2, fun p hp => Or.inl hp⟩
  | cons row rows ih =>
    intro ceds out h1 h2
    simp only [List.foldl_cons]
    by_cases hbad : rowName row = "" ∨ rowCedula row = ""
    · rw [processRow_bad_row env (ceds, out) row hbad]
      exact ih ceds out h1 h2
    · unfold processRow
      rw [if_neg hbad]
      by_cases hseen : rowCedula row ∈ ceds
      · rw [if_pos hseen]
        exact ih ceds out h1 h2
      · rw [if_neg hseen]
        by_cases hqr : env.qrOk row = true
        · rw [if_pos hqr]
          have h1' : (out ++ [{ id := env.mkId out.length
                                name := rowName row
                                cedula := rowCedula row
                                gerencia := rowGerencia row
                                qrCode := env.mkQr row
                                createdAt := env.nowIso : Passenger }]).Pairwise
              (fun p q => p.cedula ≠ q.cedula) := by
            rw [List.pairwise_append]
            refine ⟨h1, List.pairwise_singleton _ _, ?_⟩
            intro p hp q hq
            simp only [List.mem_singleton] at hq
            subst hq
            intro hc
            apply hseen
            have hpc : p.cedula = rowCedula row := hc
            exact hpc ▸ h2 p hp
          have h2' : ∀ p ∈ (out ++ [{ id := env.mkId out.length
                                      name := rowName row
                                      cedula := rowCedula row
                                      gerencia := rowGerencia row
                                      qrCode := env.mkQr row
                                      createdAt := env.nowIso : Passenger }]),
              p.cedula ∈ rowCedula row :: ceds := by
            intro p hp
            rcases List.mem_append.mp hp with hpo | hpn
            · exact List.mem_cons_of_mem _ (h2 p hpo)
            · simp only [List.mem_singleton] at hpn
              subst hpn
              exact List.mem_cons_self _ _
          obtain ⟨g1, g2, g3⟩ := ih (rowCedula row :: ceds) _ h1' h2'
          refine ⟨g1, g2, ?_⟩
          intro p hp
          rcases g3 p hp with hpo | hpc
          · rcases List.mem_append.mp hpo with hout | hnew
            · exact Or.inl hout
            · simp only [List.mem_singleton] at hnew
              subst hnew
              exact Or.inr hseen
          · exact Or.inr (fun hc => hpc (List.mem_cons_of_mem _ hc))
        · rw [if_neg hqr]
          exact ih ceds out h1 h2

/-- C9: the passengers produced by `processPassengersFromImport` carry
pairwise-distinct cedulas, none of which belongs to an already-stored
passenger, and any input row lacking a name or a cedula contributes no
record: deleting such a row from the batch leaves the output unchanged. -/
theorem C9_import_dedup (env : ImportEnv) (existing : List Passenger)
    (rows : List Row) :
    (processPassengersFromImport env existing rows).Pairwise
        (fun p q => p.cedula ≠ q.cedula)
    ∧ (∀ p ∈ processPassengersFromImport env existing rows,
        ∀ q ∈ existing, p.cedula ≠ q.cedula)
    ∧ (∀ (pre post : List Row) (row : Row),
        rowName row = "" ∨ rowCedula row = "" →
        processPassengersFromImport env existing (pre ++ row :: post)
          = processPassengersFromImport env existing (pre ++ post)) := by
  obtain ⟨g1, _, g3⟩ := processRows_invariant env rows
    (existing.map Passenger.cedula) [] (List.Pairwise.nil) (by simp)
  refine ⟨g1, ?_, ?_⟩
  · intro p hp q hq hc
    rcases g3 p hp with hfalse | hnc
    · simp at hfalse
    · exact hnc (hc ▸ List.mem_map_of_mem Passenger.cedula hq)
  · intro pre post row hbad
    unfold processPassengersFromImport
    rw [List.foldl_append, List.foldl_append, List.foldl_cons,
      processRow_bad_row env _ row hbad]

/-- Witness for C9: a batch with a good row, a repeat of a stored cedula, and
a nameless row. -/
theorem C9_witness :
    (processPassengersFromImport importEnvFix [pFix] [rowGood, rowDupFix, rowBad]).Pairwise
        (fun p q => p.cedula ≠ q.cedula)
    ∧ (∀ p ∈ processPassengersFromImport importEnvFix [pFix] [rowGood, rowDupFix, rowBad],
        ∀ q ∈ [pFix], p.cedula ≠ q.cedula)
    ∧ processPassengersFromImport importEnvFix [pFix] ([rowGood, rowDupFix] ++ rowBad :: [])
        = processPassengersFromImport importEnvFix [pFix] ([rowGood, rowDupFix] ++ []) :=
  ⟨(C9_import_dedup importEnvFix [pFix] [rowGood, rowDupFix, rowBad]).1,
    (C9_import_dedup importEnvFix [pFix] [rowGood, rowDupFix, rowBad]).2.1,
    (C9_import_dedup importEnvFix [pFix] [rowGood, rowDupFix, rowBad]).2.2
      [rowGood, rowDupFix] [] rowBad (Or.inl rfl)⟩

/-! ### Migration -/

theorem idsOf_insertReplace (st : List Rec) (r : Rec) :
    idsOf (insertReplace st r)
      = if r.id ∈ idsOf st then idsOf st else idsOf st ++ [r.id] := by
  unfold insertReplace idsOf
  by_cases hmem : r.id ∈ st.map Rec.id
  · have hany : st.any (fun x => x.id = r.id) = true := by
      rw [List.any_eq_true]
      obtain ⟨x, hx, hxid⟩ := List.mem_map.mp hmem
      exact ⟨x, hx, by simp [hxid]⟩
    rw [if_pos hany, if_pos hmem, List.map_map]
    apply List.map_congr_left
    intro x hx
    by_cases h : x.id = r.id <;> simp [h]
  · have hany : ¬ st.any (fun x => x.id = r.id) = true := by
      rw [List.any_eq_true]
      rintro ⟨x, hx, hxid⟩
      exact hmem (List.mem_map.mpr ⟨x, hx, by simpa using hxid⟩)
    rw [if_neg hany, if_neg hmem, List.map_append]
    rfl

theorem saveAllGo_fst (fails : Rec → Bool) (L : List Rec) :
    ∀ st : List Rec, (saveAllGo fails st L).1 = batchOk fails L := by
  induction L with
  | nil => intro st; rfl
  | cons r rs ih =>
    intro st
    unfold saveAllGo batchOk
    by_cases hf : fails r = true
    · rw [if_pos hf, if_pos hf]
    · rw [if_neg hf, if_neg hf]
      exact ih _

theorem saveAllGo_ids (fails : Rec → Bool) (L : List Rec) :
    ∀ st : List Rec, idsOf (saveAllGo fails st L).2
      = idsAfter fails (idsOf st) L := by
  induction L with
  | nil => intro st; rfl
  | cons r rs ih =>
    intro st
    unfold saveAllGo idsAfter
    by_cases hf : fails r = true
    · rw [if_pos hf, if_pos hf]
    · rw [if_neg hf, if_neg hf, ih, idsOf_insertReplace]

theorem mem_idsAfter (fails : Rec → Bool) (L : List Rec) :
    ∀ (ids : List String) (i : String), i ∈ ids → i ∈ idsAfter fails ids L := by
  induction L with
  | nil => exact fun ids i h => h
  | cons r rs ih =>
    intro ids i h
    unfold idsAfter
    by_cases hf : fails r = true
    · rw [if_pos hf]; exact h
    · rw [if_neg hf]
      apply ih
      by_cases hr : r.id ∈ ids
      · rw [if_pos hr]; exact h
      · rw [if_neg hr]; exact List.mem_append_left _ h

theorem idsAfter_idem (fails : Rec → Bool) (L : List Rec) :
    ∀ ids : List String,
      idsAfter fails (idsAfter fails ids L) L = idsAfter fails ids L := by
  induction L with
  | nil => intro ids; rfl
  | cons r rs ih =>
    intro ids
    by_cases hf : fails r = true
    · simp only [idsAfter, if_pos hf]
    · have hins : r.id ∈ (if r.id ∈ ids then ids else ids ++ [r.id]) := by
        by_cases hr : r.id ∈ ids
        · rw [if_pos hr]; exact hr
        · rw [if_neg hr]; exact List.mem_append_right _ (List.mem_singleton.mpr rfl)
      conv_lhs => rw [idsAfter]
      rw [if_neg hf]
      conv_lhs => rw [idsAfter]
      rw [if_neg hf]
      rw [if_pos (mem_idsAfter fails rs _ r.id hins)]
      conv_rhs => rw [idsAfter]
      rw [if_neg hf]
      exact ih _

theorem idsAfter_nodup (fails : Rec → Bool) (L : List Rec) :
    ∀ ids : List String, ids.Nodup → (idsAfter fails ids L).Nodup := by
  induction L with
  | nil => exact fun ids h => h
  | cons r rs ih =>
    intro ids h
    unfold idsAfter
    by_cases hf : fails r = true
    · rw [if_pos hf]; exact h
    · rw [if_neg hf]
      apply ih
      by_cases hr : r.id ∈ ids
      · rw [if_pos hr]; exact h
      · rw [if_neg hr]
        rw [List.nodup_append]
        exact ⟨h, List.nodup_singleton _, by simpa using hr⟩

theorem collIdsEq_refl (c : Coll) : CollIdsEq c c := ⟨rfl, rfl⟩

theorem forall₂_collIdsEq_refl : ∀ cs : List Coll, List.Forall₂ CollIdsEq cs cs
  | [] => List.Forall₂.nil
  | c :: cs => List.Forall₂.cons (collIdsEq_refl c) (forall₂_collIdsEq_refl cs)

/-- The success flag of the collection loop: every non-empty legacy
collection must save without rejection. -/
theorem migrateColls_fst (fails : Rec → Bool) : ∀ cs : List Coll,
    (migrateColls fails cs).1
      = cs.all (fun c => c.legacy.isEmpty || batchOk fails c.legacy) := by
  intro cs
  induction cs with
  | nil => rfl
  | cons c cs ih =>
    unfold migrateColls
    rw [List.all_cons]
    by_cases hemp : c.legacy.isEmpty = true
    · rw [if_pos hemp, hemp]
      simpa using ih
    · rw [if_neg hemp, Bool.eq_false_iff.mpr hemp, saveAllGo_fst]
      by_cases hok : batchOk fails c.legacy = true
      · rw [if_pos hok, hok, ih]
        simp
      · rw [if_neg hok, Bool.eq_false_iff.mpr hok]
        simp


theorem saveAllGo_replay_ids (fails : Rec → Bool) (store L : List Rec) :
    idsOf (saveAllGo fails (saveAllGo fails store L).2 L).2
      = idsOf (saveAllGo fails store L).2 := by
  rw [saveAllGo_ids, saveAllGo_ids]
  exact idsAfter_idem fails L (idsOf store)

/-- Re-running the collection loop over its own output reproduces the same
success flag and the same legacy/id-trace view of every collection. -/
theorem migrateColls_replay (fails : Rec → Bool) : ∀ cs : List Coll,
    (migrateColls fails (migrateColls fails cs).2).1 = (migrateColls fails cs).1
    ∧ List.Forall₂ CollIdsEq
        (migrateColls fails (migrateColls fails cs).2).2
        (migrateColls fails cs).2 := by
  intro cs
  induction cs with
  | nil => exact ⟨rfl, List.Forall₂.nil⟩
  | cons c cs ih =>
    by_cases hemp : c.legacy.isEmpty = true
    · simp only [migrateColls, hemp, if_true]
      exact ⟨ih.1, List.Forall₂.cons (collIdsEq_refl c) ih.2⟩
    · have hemp2 : c.legacy.isEmpty = false := Bool.eq_false_iff.mpr hemp
      by_cases hok : batchOk fails c.legacy = true
      · simp only [migrateColls, hemp2, Bool.false_eq_true, if_false,
          saveAllGo_fst, hok, if_true]
        refine ⟨ih.1, List.Forall₂.cons ⟨rfl, ?_⟩ ih.2⟩
        exact saveAllGo_replay_ids fails c.store c.legacy
      · have hok2 : batchOk fails c.legacy = false := Bool.eq_false_iff.mpr hok
        simp only [migrateColls, hemp2, Bool.false_eq_true, if_false,
          saveAllGo_fst, hok2]
        constructor
        · trivial
        · exact List.Forall₂.cons ⟨rfl, saveAllGo_replay_ids fails c.store c.legacy⟩
            (forall₂_collIdsEq_refl cs)

/-- The collection loop preserves freedom from duplicate ids in every durable
store. -/
theorem migrateColls_nodup (fails : Rec → Bool) : ∀ cs : List Coll,
    (∀ c ∈ cs, (idsOf c.store).Nodup) →
    ∀ c2 ∈ (migrateColls fails cs).2, (idsOf c2.store).Nodup := by
  intro cs
  induction cs with
  | nil =>
    intro _ c2 hc2
    simp [migrateColls] at hc2
  | cons c cs ih =>
    intro hall c2 hc2
    by_cases hemp : c.legacy.isEmpty = true
    · simp only [migrateColls, hemp, if_true] at hc2
      rcases List.mem_cons.mp hc2 with rfl | hmem
      · exact hall c2 (List.mem_cons_self _ _)
      · exact ih (fun d hd => hall d (List.mem_cons_of_mem _ hd)) c2 hmem
    · have hemp2 : c.legacy.isEmpty = false := Bool.eq_false_iff.mpr hemp
      have hnodhead : (idsOf (saveAllGo fails c.store c.legacy).2).Nodup := by
        rw [saveAllGo_ids]
        exact idsAfter_nodup fails c.legacy _ (hall c (List.mem_cons_self _ _))
      by_cases hok : batchOk fails c.legacy = true
      · simp only [migrateColls, hemp2, Bool.false_eq_true, if_false,
          saveAllGo_fst, hok, if_true] at hc2
        rcases List.mem_cons.mp hc2 with rfl | hmem
        · exact hnodhead
        · exact ih (fun d hd => hall d (List.mem_cons_of_mem _ hd)) c2 hmem
      · have hok2 : batchOk fails c.legacy = false := Bool.eq_false_iff.mpr hok
        simp only [migrateColls, hemp2, Bool.false_eq_true, if_false,
          saveAllGo_fst, hok2] at hc2
        rcases List.mem_cons.mp hc2 with rfl | hmem
        · exact hnodhead
        · exact hall c2 (List.mem_cons_of_mem _ hmem)

/-- C6: `migrate` is a no-op when the completion marker is set; when it is
not, the run sets the marker exactly when every non-empty legacy collection
saved without rejection; running `migrate` twice leaves the same marker and,
per collection, the same legacy data and the same store id trace (equal id
sets) as running it once; and no run introduces duplicate ids into a store
that had none — `put` being insert-or-replace by id. -/
theorem C6_migrate_idempotent (fails : Rec → Bool) (s : MigState) :
    (s.marker = true → migrate fails s = s)
    ∧ (s.marker = false →
        ((migrate fails s).marker = true
          ↔ s.colls.all (fun c => c.legacy.isEmpty || batchOk fails c.legacy)
              = true))
    ∧ (migrate fails (migrate fails s)).marker = (migrate fails s).marker
    ∧ List.Forall₂ CollIdsEq (migrate fails (migrate fails s)).colls
        (migrate fails s).colls
    ∧ ((∀ c ∈ s.colls, (idsOf c.store).Nodup) →
        ∀ c ∈ (migrate fails s).colls, (idsOf c.store).Nodup) := by
  refine ⟨?_, ?_, ?_, ?_, ?_⟩
  · intro h
    unfold migrate
    rw [if_pos h]
  · intro h
    unfold migrate
    rw [if_neg (by simp [h])]
    show (migrateColls fails s.colls).1 = true ↔ _
    rw [migrateColls_fst]
  · by_cases hm : s.marker = true
    · simp only [migrate, hm, if_true]
    · have hm2 : s.marker = false := Bool.eq_false_iff.mpr hm
      by_cases hok : (migrateColls fails s.colls).1 = true
      · simp only [migrate, hm2, Bool.false_eq_true, if_false, hok, if_true]
      · have hok2 : (migrateColls fails s.colls).1 = false :=
          Bool.eq_false_iff.mpr hok
        simp only [migrate, hm2, Bool.false_eq_true, if_false, hok2]
        exact (migrateColls_replay fails s.colls).1.trans hok2
  · by_cases hm : s.marker = true
    · simp only [migrate, hm, if_true]
      exact forall₂_collIdsEq_refl s.colls
    · have hm2 : s.marker = false := Bool.eq_false_iff.mpr hm
      by_cases hok : (migrateColls fails s.colls).1 = true
      · simp only [migrate, hm2, Bool.false_eq_true, if_false, hok, if_true]
        exact forall₂_collIdsEq_refl _
      · have hok2 : (migrateColls fails s.colls).1 = false :=
          Bool.eq_false_iff.mpr hok
        simp only [migrate, hm2, Bool.false_eq_true, if_false, hok2]
        exact (migrateColls_replay fails s.colls).2
  · intro hnd c hc
    by_cases hm : s.marker = true
    · unfold migrate at hc
      rw [if_pos hm] at hc
      exact hnd c hc
    · unfold migrate at hc
      rw [if_neg (by simp [hm])] at hc
      exact migrateColls_nodup fails s.colls hnd c hc

/-- Witness for C6: a marker-set state is untouched; a fresh run on the
fixture state sets the marker, is idempotent, and leaves duplicate-free ids. -/
theorem C6_witness :
    migrate (fun _ => false) ⟨true, [collFix]⟩ = ⟨true, [collFix]⟩
    ∧ ((migrate (fun _ => false) migFix).marker = true
        ↔ [collFix].all (fun c => c.legacy.isEmpty
            || batchOk (fun _ => false) c.legacy) = true)
    ∧ (migrate (fun _ => false) (migrate (fun _ => false) migFix)).marker
        = (migrate (fun _ => false) migFix).marker
    ∧ (∀ c ∈ (migrate (fun _ => false) migFix).colls, (idsOf c.store).Nodup) :=
  ⟨(C6_migrate_idempotent (fun _ => false) ⟨true, [collFix]⟩).1 rfl,
    (C6_migrate_idempotent (fun _ => false) migFix).2.1 rfl,
    (C6_migrate_idempotent (fun _ => false) migFix).2.2.1,
    (C6_migrate_idempotent (fun _ => false) migFix).2.2.2.2 (by decide)⟩

end JFCorp
